import Mathlib

set_option maxRecDepth 100000

/-!
# Verification of the SPECTRA (tg-archive) core against its specification

This file contains a shallow embedding of the parts of the source
(`tgarchive/forwarding.py`, `tgarchive/discovery.py`, `tgarchive/db.py`)
that the specification's claims are about, together with theorems
settling each claim.

Machine reals (Python floats) are modelled by `ℚ`; Python dictionaries by
association lists; SQLite tables by lists of rows.  Every definition is
translated from the Python source, statement by statement.
-/

/- ### SHA-256 (as used by `hashlib.sha256(...).hexdigest()` in forwarding.py) -/

/-- Truncate to a 32-bit word. -/
def w32 (n : Nat) : Nat := n % 4294967296

/-- 32-bit rotate right. -/
def rotr32 (x k : Nat) : Nat := w32 ((x >>> k) ||| (x <<< (32 - k)))

def bigSigma0 (x : Nat) : Nat := (rotr32 x 2) ^^^ (rotr32 x 13) ^^^ (rotr32 x 22)

def bigSigma1 (x : Nat) : Nat := (rotr32 x 6) ^^^ (rotr32 x 11) ^^^ (rotr32 x 25)

def smallSigma0 (x : Nat) : Nat := (rotr32 x 7) ^^^ (rotr32 x 18) ^^^ (x >>> 3)

def smallSigma1 (x : Nat) : Nat := (rotr32 x 17) ^^^ (rotr32 x 19) ^^^ (x >>> 10)

/-- The 64 SHA-256 round constants (FIPS 180-4, written in decimal). -/
def sha256K : List Nat :=
  [1116352408, 1899447441, 3049323471, 3921009573, 961987163, 1508970993,
   2453635748, 2870763221, 3624381080, 310598401, 607225278, 1426881987,
   1925078388, 2162078206, 2614888103, 3248222580, 3835390401, 4022224774,
   264347078, 604807628, 770255983, 1249150122, 1555081692, 1996064986,
   2554220882, 2821834349, 2952996808, 3210313671, 3336571891, 3584528711,
   113926993, 338241895, 666307205, 773529912, 1294757372, 1396182291,
   1695183700, 1986661051, 2177026350, 2456956037, 2730485921, 2820302411,
   3259730800, 3345764771, 3516065817, 3600352804, 4094571909, 275423344,
   430227734, 506948616, 659060556, 883997877, 958139571, 1322822218,
   1537002063, 1747873779, 1955562222, 2024104815, 2227730452, 2361852424,
   2428436474, 2756734187, 3204031479, 3329325298]

/-- The SHA-256 initial hash state (FIPS 180-4, written in decimal). -/
def sha256H0 : List Nat :=
  [1779033703, 3144134277, 1013904242, 2773480762,
   1359893119, 2600822924, 528734635, 1541459225]

/-- One step of the message-schedule extension: append word `w[t]` for `t ≥ 16`. -/
def scheduleStep (ws : List Nat) : List Nat :=
  ws ++ [w32 (smallSigma1 (ws.getD (ws.length - 2) 0) + ws.getD (ws.length - 7) 0 +
              smallSigma0 (ws.getD (ws.length - 15) 0) + ws.getD (ws.length - 16) 0)]

/-- Extend the 16-word schedule by `n` further words. -/
def buildSchedule (ws : List Nat) : Nat → List Nat
  | 0 => ws
  | n + 1 => buildSchedule (scheduleStep ws) n

/-- Working state of the SHA-256 compression function. -/
structure Sha256State where
  a : Nat
  b : Nat
  c : Nat
  d : Nat
  e : Nat
  f : Nat
  g : Nat
  hh : Nat
deriving Repr, DecidableEq

/-- One compression round with round constant `k` and schedule word `w`. -/
def sha256Round (s : Sha256State) (k w : Nat) : Sha256State :=
  let ch := (s.e &&& s.f) ^^^ ((s.e ^^^ 0xffffffff) &&& s.g)
  let maj := (s.a &&& s.b) ^^^ (s.a &&& s.c) ^^^ (s.b &&& s.c)
  let t1 := w32 (s.hh + bigSigma1 s.e + ch + k + w)
  let t2 := w32 (bigSigma0 s.a + maj)
  ⟨w32 (t1 + t2), s.a, s.b, s.c, w32 (s.d + t1), s.e, s.f, s.g⟩

def sha256Rounds (s : Sha256State) : List (Nat × Nat) → Sha256State
  | [] => s
  | (k, w) :: rest => sha256Rounds (sha256Round s k w) rest

/-- Compress one 16-word block into the running 8-word hash value. -/
def sha256Compress (h : List Nat) (block : List Nat) : List Nat :=
  let ws := buildSchedule block 48
  let s0 : Sha256State :=
    ⟨h.getD 0 0, h.getD 1 0, h.getD 2 0, h.getD 3 0, h.getD 4 0, h.getD 5 0, h.getD 6 0, h.getD 7 0⟩
  let s := sha256Rounds s0 (sha256K.zip ws)
  [w32 (h.getD 0 0 + s.a), w32 (h.getD 1 0 + s.b), w32 (h.getD 2 0 + s.c),
   w32 (h.getD 3 0 + s.d), w32 (h.getD 4 0 + s.e), w32 (h.getD 5 0 + s.f),
   w32 (h.getD 6 0 + s.g), w32 (h.getD 7 0 + s.hh)]

/-- SHA-256 message padding over a byte list. -/
def sha256Pad (msg : List Nat) : List Nat :=
  let len := msg.length
  let r := (len + 1) % 64
  let zeros := (56 + 64 - r) % 64
  msg ++ [0x80] ++ List.replicate zeros 0 ++
    (List.range 8).map (fun i => (len * 8) >>> ((7 - i) * 8) % 256)

/-- Big-endian bytes to 32-bit words. -/
def toWordsBE : List Nat → List Nat
  | b0 :: b1 :: b2 :: b3 :: rest => (((b0 * 256 + b1) * 256 + b2) * 256 + b3) :: toWordsBE rest
  | _ => []

/-- Group a word list into 16-word blocks. -/
def toBlocks : List Nat → List (List Nat)
  | w0 :: w1 :: w2 :: w3 :: w4 :: w5 :: w6 :: w7 :: w8 :: w9 :: w10 :: w11 :: w12 :: w13 :: w14 :: w15 :: rest =>
      [w0, w1, w2, w3, w4, w5, w6, w7, w8, w9, w10, w11, w12, w13, w14, w15] :: toBlocks rest
  | _ => []

def sha256Digest (msg : List Nat) : List Nat :=
  (toBlocks (toWordsBE (sha256Pad msg))).foldl sha256Compress sha256H0

def hexDigitChar (n : Nat) : Char :=
  "0123456789abcdef".data.getD n '0'

/-- A 32-bit word as 8 lowercase hex characters. -/
def wordToHex (n : Nat) : List Char :=
  (List.range 8).map (fun i => hexDigitChar ((n >>> ((7 - i) * 4)) % 16))

/-- Encode one character as UTF-8 bytes (Python `str.encode('utf-8')`). -/
def utf8EncodeChar (c : Char) : List Nat :=
  let n := c.toNat
  if n < 0x80 then [n]
  else if n < 0x800 then [0xc0 ||| (n >>> 6), 0x80 ||| (n % 64)]
  else if n < 0x10000 then
    [0xe0 ||| (n >>> 12), 0x80 ||| ((n >>> 6) % 64), 0x80 ||| (n % 64)]
  else
    [0xf0 ||| (n >>> 18), 0x80 ||| ((n >>> 12) % 64), 0x80 ||| ((n >>> 6) % 64), 0x80 ||| (n % 64)]

def utf8Bytes (s : String) : List Nat :=
  (s.data.map utf8EncodeChar).flatten

/-- `hashlib.sha256(s.encode('utf-8')).hexdigest()`. -/
def sha256hex (s : String) : String :=
  String.mk (((sha256Digest (utf8Bytes s)).map wordToHex).flatten)

/-- Sanity check against the FIPS-180 test vector for "abc". -/
theorem sha256hex_abc :
    sha256hex "abc" = "ba7816bf8f01cfea414140de5dae2223b00361a396177a9cb410ff61f20015ad" := by
  rfl

/- ### Message model and content hash (forwarding.py, `AttachmentForwarder`) -/

/-- The attributes of `message.file` the hash formula reads
(`file.id` / `file.size`; `none` models an absent or `None` attribute,
matching the `hasattr(...) and ... is not None` guards). -/
structure TLFile where
  id : Option Int
  size : Option Int
deriving Repr, DecidableEq

/-- The attributes of `message.media` the hash formula reads.
`id`/`access_hash` are `some` exactly when `hasattr(message.media, ...)` holds;
`webpage_url` is `some u` exactly when the media is a `MessageMediaWebPage`
whose `webpage` has attribute `url = u`; `type_name` is
`type(message.media).__name__`. -/
structure TLMedia where
  id : Option Int
  access_hash : Option Int
  webpage_url : Option String
  type_name : String
deriving Repr, DecidableEq

/-- The parts of a Telethon `Message` read by the forwarder. -/
structure TLMessage where
  id : Int
  text : Option String
  media : Option TLMedia
  file : Option TLFile
deriving Repr, DecidableEq

/-- Python truthiness of `message.text` (`None` and `""` are falsy). -/
def textTruthy : Option String → Bool
  | none => false
  | some s => !s.isEmpty

/-- The `content_parts` list accumulated by
`AttachmentForwarder._compute_message_hash`, in source order. -/
def content_parts (m : TLMessage) : List String :=
  let parts := if textTruthy m.text then [m.text.getD ""] else []
  let parts := parts ++
    (match m.media with
     | none => []
     | some md =>
       (match md.id with
        | some i => ["media_id:" ++ toString i]
        | none => []) ++
       (match md.access_hash with
        | some h => ["media_hash:" ++ toString h]
        | none => []) ++
       (match m.file with
        | none => []
        | some f =>
          (match f.id with
           | some i => ["file_id:" ++ toString i]
           | none => []) ++
          (match f.size with
           | some s => ["file_size:" ++ toString s]
           | none => [])) ++
       (match md.webpage_url with
        | some u => ["webpage_url:" ++ u]
        | none => []))
  let parts := if parts.isEmpty && m.media.isSome then
      ["media_type:" ++ (m.media.map TLMedia.type_name).getD ""]
    else parts
  if parts.isEmpty && !(textTruthy m.text) then
    ["message_obj_id:" ++ toString m.id]
  else parts

/-- Lexicographic comparison of character lists by code point, the order
Python uses to compare strings. -/
def lexLe : List Char → List Char → Bool
  | [], _ => true
  | _ :: _, [] => false
  | a :: as, b :: bs =>
    decide (a.toNat < b.toNat) || (decide (a.toNat = b.toNat) && lexLe as bs)

/-- Python string comparison `a <= b` (code-point lexicographic). -/
def pyStrLe (a b : String) : Prop := lexLe a.data b.data = true

instance : DecidableRel pyStrLe := fun _ _ => instDecidableEqBool _ _

theorem char_toNat_inj {a b : Char} (h : a.toNat = b.toNat) : a = b := by
  unfold Char.toNat at h
  apply Char.eq_of_val_eq
  apply UInt32.eq_of_val_eq
  apply Fin.ext
  exact h

theorem lexLe_cons_eq (a b : Char) (as bs : List Char) :
    lexLe (a :: as) (b :: bs) = true ↔
      (a.toNat < b.toNat ∨ (a.toNat = b.toNat ∧ lexLe as bs = true)) := by
  simp [lexLe]

theorem lexLe_total : ∀ as bs : List Char, lexLe as bs = true ∨ lexLe bs as = true
  | [], _ => Or.inl rfl
  | _ :: _, [] => Or.inr rfl
  | a :: as, b :: bs => by
    rw [lexLe_cons_eq, lexLe_cons_eq]
    rcases Nat.lt_trichotomy a.toNat b.toNat with h | h | h
    · exact Or.inl (Or.inl h)
    · rcases lexLe_total as bs with ih | ih
      · exact Or.inl (Or.inr ⟨h, ih⟩)
      · exact Or.inr (Or.inr ⟨h.symm, ih⟩)
    · exact Or.inr (Or.inl h)

theorem lexLe_antisymm : ∀ as bs : List Char,
    lexLe as bs = true → lexLe bs as = true → as = bs
  | [], [], _, _ => rfl
  | [], _ :: _, _, h2 => by simp [lexLe] at h2
  | _ :: _, [], h1, _ => by simp [lexLe] at h1
  | a :: as, b :: bs, h1, h2 => by
    rw [lexLe_cons_eq] at h1 h2
    rcases h1 with h1 | ⟨he1, h1⟩
    · rcases h2 with h2 | ⟨he2, _⟩
      · omega
      · omega
    · rcases h2 with h2 | ⟨_, h2⟩
      · omega
      · rw [char_toNat_inj he1, lexLe_antisymm as bs h1 h2]

theorem lexLe_trans : ∀ as bs cs : List Char,
    lexLe as bs = true → lexLe bs cs = true → lexLe as cs = true
  | [], _, _, _, _ => rfl
  | _ :: _, [], _, h1, _ => by simp [lexLe] at h1
  | _ :: _, _ :: _, [], _, h2 => by simp [lexLe] at h2
  | a :: as, b :: bs, c :: cs, h1, h2 => by
    rw [lexLe_cons_eq] at h1 h2 ⊢
    rcases h1 with h1 | ⟨he1, h1⟩
    · rcases h2 with h2 | ⟨he2, _⟩
      · exact Or.inl (Nat.lt_trans h1 h2)
      · exact Or.inl (by omega)
    · rcases h2 with h2 | ⟨he2, h2⟩
      · exact Or.inl (by omega)
      · exact Or.inr ⟨by omega, lexLe_trans as bs cs h1 h2⟩

instance : IsTotal String pyStrLe := ⟨fun a b => lexLe_total a.data b.data⟩

instance : IsTrans String pyStrLe := ⟨fun a b c => lexLe_trans a.data b.data c.data⟩

instance : IsAntisymm String pyStrLe :=
  ⟨fun a b h1 h2 => by
    cases a; cases b
    exact congrArg String.mk (lexLe_antisymm _ _ h1 h2)⟩

/-- Python `sorted` on strings: ascending stable sort for the lexicographic
code-point order (any stable ascending sort computes the same list, by
antisymmetry of the order). -/
def sortStrings (l : List String) : List String :=
  l.insertionSort pyStrLe

/-- `AttachmentForwarder._compute_message_hash`: sort the parts, join with
`"|"`, SHA-256 hex digest. -/
def compute_message_hash (m : TLMessage) : String :=
  sha256hex (String.intercalate "|" (sortStrings (content_parts m)))

theorem sortStrings_eq_of_perm {l1 l2 : List String} (h : l1.Perm l2) :
    sortStrings l1 = sortStrings l2 := by
  apply List.eq_of_perm_of_sorted (r := pyStrLe)
  · exact (List.perm_insertionSort _ l1).trans (h.trans (List.perm_insertionSort _ l2).symm)
  · exact List.sorted_insertionSort _ l1
  · exact List.sorted_insertionSort _ l2

/-- C4: the content hash of a message is the SHA-256 hex digest of the
collected tokens sorted lexicographically and joined with `"|"`; and for any
two messages whose token collections form identical multisets (are
permutations of each other), the computed hashes are equal, regardless of
the order in which the tokens were collected. -/
theorem content_hash_formula_and_perm_invariant :
    (∀ m : TLMessage,
      compute_message_hash m =
        sha256hex (String.intercalate "|" (sortStrings (content_parts m)))) ∧
    (∀ m1 m2 : TLMessage, (content_parts m1).Perm (content_parts m2) →
      compute_message_hash m1 = compute_message_hash m2) := by
  refine ⟨fun m => rfl, fun m1 m2 h => ?_⟩
  unfold compute_message_hash
  rw [sortStrings_eq_of_perm h]

/-- C4 witness: two concrete messages whose token multisets coincide but are
collected in opposite orders hash identically. -/
theorem content_hash_perm_invariant_witness :
    (content_parts ⟨1, some "media_hash:7", some ⟨some 42, none, none, "MessageMediaPhoto"⟩, none⟩).Perm
      (content_parts ⟨2, some "media_id:42", some ⟨none, some 7, none, "MessageMediaPhoto"⟩, none⟩) ∧
    compute_message_hash ⟨1, some "media_hash:7", some ⟨some 42, none, none, "MessageMediaPhoto"⟩, none⟩ =
      compute_message_hash ⟨2, some "media_id:42", some ⟨none, some 7, none, "MessageMediaPhoto"⟩, none⟩ :=
  ⟨by decide, content_hash_formula_and_perm_invariant.2 _ _ (by decide)⟩

/- ### The per-message forwarding loop (forwarding.py, `forward_messages`) -/

/-- Observable state of one `forward_messages` run: the in-memory hash set
`self.message_hashes`, the `forwarded_messages` table rows
`(hash, message_id)` (hash is the primary key), and the sequence of message
ids delivered to the primary destination. -/
structure ForwardState where
  message_hashes : List String
  db_rows : List (String × Int)
  sent_primary : List Int
deriving Repr, DecidableEq

def emptyForwardState : ForwardState := ⟨[], [], []⟩

/-- `AttachmentForwarder._is_duplicate`: with dedup enabled, check the
in-memory set, then the `forwarded_messages` table. -/
def is_duplicate (enable_dedup : Bool) (st : ForwardState) (m : TLMessage) : Bool :=
  enable_dedup &&
    (let h := compute_message_hash m
     st.message_hashes.contains h || st.db_rows.any (fun r => r.1 == h))

/-- `AttachmentForwarder._record_forwarded`: add the hash to the memory set
and `INSERT OR IGNORE` a row keyed by the hash. -/
def record_forwarded (enable_dedup : Bool) (st : ForwardState) (m : TLMessage) : ForwardState :=
  if !enable_dedup then st
  else
    let h := compute_message_hash m
    { st with
      message_hashes := st.message_hashes ++ [h]
      db_rows := if st.db_rows.any (fun r => r.1 == h) then st.db_rows
                 else st.db_rows ++ [(h, m.id)] }

/-- One iteration of the `forward_messages` message loop on the happy path
(every Telegram forward succeeds): step 0 skips duplicates, step 1 skips
messages without media, then the message is forwarded to the primary
destination and recorded. -/
def forward_step (enable_dedup : Bool) (st : ForwardState) (m : TLMessage) : ForwardState :=
  if is_duplicate enable_dedup st m then st
  else if m.media.isNone then st
  else record_forwarded enable_dedup { st with sent_primary := st.sent_primary ++ [m.id] } m

/-- The `forward_messages` loop over the iterated messages, in iteration
order. -/
def forward_messages_run (enable_dedup : Bool) (msgs : List TLMessage) : ForwardState :=
  msgs.foldl (forward_step enable_dedup) emptyForwardState

/-- Scenario 1 messages: `T1` is the text message "hello" with no media;
`T2` and `T3` are identical photos with `media.id = 42`, `access_hash = 7`. -/
def scenarioT1 : TLMessage := ⟨1, some "hello", none, none⟩

def scenarioT2 : TLMessage := ⟨2, none, some ⟨some 42, some 7, none, "MessageMediaPhoto"⟩, none⟩

def scenarioT3 : TLMessage := ⟨3, none, some ⟨some 42, some 7, none, "MessageMediaPhoto"⟩, none⟩

/-- C1 counterexample: on the Scenario-1 channel the dedup-enabled forwarder
does NOT produce 2 `ForwardedMessage` rows with the primary destination
receiving T1 then T2: the text message T1 carries no media, so the
attachments-only filter (`if not message.media: continue`) drops it before
any forward or record. -/
theorem scenario1_as_stated_fails :
    ¬ ((forward_messages_run true [scenarioT1, scenarioT2, scenarioT3]).db_rows.length = 2 ∧
       (forward_messages_run true [scenarioT1, scenarioT2, scenarioT3]).sent_primary = [1, 2]) := by
  decide

/-- C1 amended: the run produces exactly one `ForwardedMessage` row — the
hash of the photo tokens `{media_id:42, media_hash:7}` — T1 is skipped by
the attachments-only filter, T3 is skipped as a duplicate (processing it
leaves the state unchanged), and the primary destination receives exactly
one message, T2. -/
theorem scenario1_amended :
    (forward_messages_run true [scenarioT1, scenarioT2, scenarioT3]).db_rows =
      [(compute_message_hash scenarioT2, 2)] ∧
    (forward_messages_run true [scenarioT1, scenarioT2, scenarioT3]).sent_primary = [2] ∧
    forward_step true (forward_messages_run true [scenarioT1, scenarioT2]) scenarioT3 =
      forward_messages_run true [scenarioT1, scenarioT2] := by
  refine ⟨by decide, by decide, by decide⟩

/- ### Task persistence (discovery.py, `ParallelTaskScheduler._save_task`) -/

/-- One row of the `parallel_tasks` table (`task_id` is the primary key and
is stored separately as the association key; every other column is
nullable). -/
structure TaskRow where
  task_type : Option String
  target : Option String
  session_name : Option String
  started_at : Option String
  completed_at : Option String
  success : Option Bool
  error : Option String
  result : Option String
deriving Repr, DecidableEq

/-- The field dictionary passed to `_save_task` (`task_data`): `none` means
the key is absent from the dictionary. -/
structure TaskFields where
  task_type : Option String := none
  target : Option String := none
  session_name : Option String := none
  started_at : Option String := none
  completed_at : Option String := none
  success : Option Bool := none
  error : Option String := none
  result : Option String := none

/-- `_save_task`: SQLite `INSERT OR REPLACE INTO parallel_tasks` naming only
the supplied fields plus `task_id`.  `INSERT OR REPLACE` deletes any
existing row with the same primary key and inserts a fresh row in which
every column not named in the statement is NULL. -/
def save_task (table : List (String × TaskRow)) (task_id : String) (d : TaskFields) :
    List (String × TaskRow) :=
  (table.filter (fun r => r.1 ≠ task_id)) ++
    [(task_id, ⟨d.task_type, d.target, d.session_name, d.started_at,
                d.completed_at, d.success, d.error, d.result⟩)]

/-- The start record written by `execute_parallel` when a task is launched
(fields `task_type`, `target`, `session_name`, `started_at`). -/
def save_task_start (table : List (String × TaskRow)) (task_id task_type target session started_at : String) :
    List (String × TaskRow) :=
  save_task table task_id
    { task_type := some task_type, target := some target,
      session_name := some session, started_at := some started_at }

/-- The completion record written by `execute_parallel` when a task finishes
(fields `completed_at`, `success`, `error`, `result`). -/
def save_task_complete (table : List (String × TaskRow)) (task_id completed_at : String)
    (succ : Bool) (error result : Option String) : List (String × TaskRow) :=
  save_task table task_id
    { completed_at := some completed_at, success := some succ,
      error := error, result := result }

/-- C2: executing one task against an empty store — start record followed by
completion record — leaves the persisted row with `completed_at` set but
`started_at`, `task_type`, `target` and `session_name` all NULL: the
completion `INSERT OR REPLACE` replaces the whole row instead of updating
it, so the row is neither in the claimed in-flight state nor in the claimed
terminal state, and the previously recorded start fields are not
preserved. -/
theorem save_task_complete_wipes_start_fields :
    save_task_complete
      (save_task_start [] "join_@g_1000" "join" "@g" "sess1" "2024-01-01T00:00:00")
      "join_@g_1000" "2024-01-01T00:05:00" true none (some "123") =
    [("join_@g_1000",
      ⟨none, none, none, none, some "2024-01-01T00:05:00", some true, none, some "123"⟩)] := by
  decide

/- ### Bounded parallel dispatch (discovery.py, `execute_parallel`) -/

/-- Scheduler state of `execute_parallel`: `pending_targets`,
`running_tasks` (as target-session pairs) and `available_sessions`. -/
structure SchedState where
  pending : List String
  running : List (String × String)
  available : List String
deriving Repr, DecidableEq

/-- One scheduling transition of the `execute_parallel` loop.
`start` models one iteration of the inner `while`: it fires only when
targets are pending, fewer than `max_concurrent` tasks run, and a session
is available; it pops the head target and head session and tracks the task.
`complete` models processing one finished task from `asyncio.wait`: the task
is removed from `running_tasks` and its session is appended back to
`available_sessions`.  (The timeout branch of `asyncio.wait` changes no
state.) -/
inductive SchedStep (max_concurrent : Nat) : SchedState → SchedState → Prop
  | start (t : String) (ts : List String) (running : List (String × String))
      (s : String) (ss : List String)
      (hlt : running.length < max_concurrent) :
      SchedStep max_concurrent ⟨t :: ts, running, s :: ss⟩ ⟨ts, running ++ [(t, s)], ss⟩
  | complete (pending : List String) (r1 r2 : List (String × String))
      (tr : String × String) (avail : List String) :
      SchedStep max_concurrent ⟨pending, r1 ++ tr :: r2, avail⟩
        ⟨pending, r1 ++ r2, avail ++ [tr.2]⟩

/-- The scheduler invariant: the global concurrency bound holds and no
session occurs twice among the running tasks and the free pool. -/
def SchedInv (max_concurrent : Nat) (st : SchedState) : Prop :=
  st.running.length ≤ max_concurrent ∧
    (st.running.map Prod.snd ++ st.available).Nodup

theorem schedStep_preserves_inv {maxc : Nat} {st st' : SchedState}
    (hstep : SchedStep maxc st st') (hinv : SchedInv maxc st) : SchedInv maxc st' := by
  rcases hinv with ⟨hlen, hnd⟩
  cases hstep with
  | start t ts running s ss hlt =>
    refine ⟨by simpa using hlt, ?_⟩
    simp only [List.map_append, List.map_cons, List.map_nil, List.append_assoc,
      List.cons_append, List.nil_append] at hnd ⊢
    exact hnd
  | complete pending r1 r2 tr avail =>
    refine ⟨?_, ?_⟩
    · simp only [List.length_append] at hlen ⊢
      simp only [List.length_cons] at hlen
      omega
    · have htail : (tr.2 :: (r2.map Prod.snd ++ avail)).Perm
          (r2.map Prod.snd ++ (avail ++ [tr.2])) := by
        have h1 := (List.perm_append_singleton tr.2 (r2.map Prod.snd ++ avail)).symm
        simpa [List.append_assoc] using h1
      have hperm := htail.append_left (r1.map Prod.snd)
      have hnd2 : (r1.map Prod.snd ++ (tr.2 :: (r2.map Prod.snd ++ avail))).Nodup := by
        simpa [List.append_assoc] using hnd
      have := hperm.nodup hnd2
      simpa [List.append_assoc] using this

/-- C5: starting from the initial state of `execute_parallel` (all targets
pending, nothing running, the distinct connected sessions available), every
state reachable through the scheduling loop has at most `max_concurrent`
tasks in flight and binds no session to two in-flight tasks; moreover the
running sessions and the free pool stay disjoint (a session leaves the pool
when a task starts on it and returns only when that task completes). -/
theorem execute_parallel_invariant (maxc : Nat) (targets sessions : List String)
    (hnd : sessions.Nodup) (st : SchedState)
    (hreach : Relation.ReflTransGen (SchedStep maxc) ⟨targets, [], sessions⟩ st) :
    st.running.length ≤ maxc ∧ (st.running.map Prod.snd ++ st.available).Nodup := by
  have hinit : SchedInv maxc ⟨targets, [], sessions⟩ := ⟨by simp, by simpa using hnd⟩
  induction hreach with
  | refl => exact hinit
  | tail _ hstep ih => exact schedStep_preserves_inv hstep ih

/-- C5 witness: with bound 1, two targets and one session, the state after
launching the first task is reachable and satisfies the invariant. -/
theorem execute_parallel_invariant_witness :
    (["s1"] : List String).Nodup ∧
    ((⟨["t2"], [("t1", "s1")], []⟩ : SchedState).running.length ≤ 1 ∧
      (((⟨["t2"], [("t1", "s1")], []⟩ : SchedState).running.map Prod.snd ++
        (⟨["t2"], [("t1", "s1")], []⟩ : SchedState).available)).Nodup) :=
  ⟨by decide,
   execute_parallel_invariant 1 ["t1", "t2"] ["s1"] (by decide) _
     (Relation.ReflTransGen.single
       (SchedStep.start "t1" ["t2"] [] "s1" [] (by decide)))⟩

/- ### Account rotation (discovery.py, `AccountRotator`) -/

/-- A value of the in-memory `usage_counts` dict: a finite count, or
`float('inf')` — the marker `mark_account_failed` and `_load_account_stats`
use for failed, banned or cooling-down accounts. -/
inductive UCount where
  | fin : Nat → UCount
  | inf : UCount
deriving Repr, DecidableEq

def UCount.isFin : UCount → Bool
  | fin _ => true
  | inf => false

/-- `count + 1` (with `inf + 1 = inf`). -/
def UCount.incr : UCount → UCount
  | fin n => fin (n + 1)
  | inf => inf

/-- `count < count'` as Python compares floats (used by `min(...)`). -/
def UCount.lt : UCount → UCount → Bool
  | fin a, fin b => a < b
  | fin _, inf => true
  | inf, _ => false

/-- `1 / (count + 1)` as a rational (`1 / inf = 0`). -/
def UCount.invSucc : UCount → ℚ
  | fin n => 1 / ((n : ℚ) + 1)
  | inf => 0

/-- In-memory state of an `AccountRotator`: the account session names in
registration order, the `usage_counts` and `last_used` dicts (indexed
`0..n-1`; `last_used` holds timestamps in seconds), and `current_index`. -/
structure RotatorState where
  accounts : List String
  usage_counts : List UCount
  last_used : List ℚ
  current_index : Nat
deriving Repr, DecidableEq

/-- `[idx for idx, count in self.usage_counts.items() if count < float('inf')]`. -/
def available_idx (st : RotatorState) : List Nat :=
  (List.range st.usage_counts.length).filter
    (fun i => (st.usage_counts.getD i .inf).isFin)

/-- The bookkeeping `get_next_account` performs on the selected index:
`usage_counts[idx] += 1`, `last_used[idx] = now`, `current_index = idx`. -/
def select_update (st : RotatorState) (idx : Nat) (now : ℚ) : RotatorState :=
  { st with
    usage_counts := st.usage_counts.set idx ((st.usage_counts.getD idx .inf).incr)
    last_used := st.last_used.set idx now
    current_index := idx }

/-- The error the specification expects when no account is eligible. -/
inductive RotError where
  | noAccountAvailable
deriving Repr, DecidableEq

/-- Python `min(available, key=lambda idx: usage_counts[idx])`: the first
index attaining the minimal usage count. -/
def min_by_usage (counts : List UCount) : List Nat → Nat → Nat
  | [], best => best
  | i :: rest, best =>
    if ((counts.getD i .inf).lt (counts.getD best .inf)) then min_by_usage counts rest i
    else min_by_usage counts rest best

/-- Python `max(scores, key=scores.get)` over the availability order: the
first index attaining the maximal score. -/
def max_by_score (score : Nat → ℚ) : List Nat → Nat → Nat
  | [], best => best
  | i :: rest, best =>
    if score best < score i then max_by_score score rest i
    else max_by_score score rest best

/-- `get_next_account`, mode `"weighted"`.  If no account is available the
source logs an error and returns `self.accounts[0]` as a fallback without
updating any statistics; it raises nothing, so the `.error` branch of the
result type is never produced. -/
def get_next_account_weighted (st : RotatorState) (now : ℚ) :
    Except RotError (Nat × RotatorState) :=
  match available_idx st with
  | [] => .ok (0, st)
  | a :: rest =>
    let sel := min_by_usage st.usage_counts rest a
    .ok (sel, select_update st sel now)

/-- `get_next_account`, mode `"random"`; `pick` models `random.choice` over
the non-empty availability list. -/
def get_next_account_random (pick : List Nat → Nat) (st : RotatorState) (now : ℚ) :
    Except RotError (Nat × RotatorState) :=
  match available_idx st with
  | [] => .ok (0, st)
  | a :: rest =>
    let sel := pick (a :: rest)
    .ok (sel, select_update st sel now)

/-- The `"smart"` score: `0.7 · hoursSinceLastUse + 0.3 · 1/(usage+1)`. -/
def smart_score (st : RotatorState) (now : ℚ) (i : Nat) : ℚ :=
  (now - st.last_used.getD i 0) / 3600 * (7 / 10) +
    (st.usage_counts.getD i .inf).invSucc * (3 / 10)

/-- `get_next_account`, mode `"smart"`. -/
def get_next_account_smart (st : RotatorState) (now : ℚ) :
    Except RotError (Nat × RotatorState) :=
  match available_idx st with
  | [] => .ok (0, st)
  | a :: rest =>
    let sel := max_by_score (smart_score st now) rest a
    .ok (sel, select_update st sel now)

/-- The `"sequential"` (default) mode: `next(self._iterator)` cycles
`0,1,...,n-1,0,...`; the `while usage_counts[selected] == inf` loop skips
unusable accounts.  `pos` is the cycle position of the iterator; the fuel
counts loop iterations, and `none` means the `while` loop never finds an
eligible account (the Python loop spins forever). -/
def seq_scan (counts : List UCount) (pos : Nat) : Nat → Option Nat
  | 0 => none
  | fuel + 1 =>
    if (counts.getD (pos % counts.length) .inf).isFin then some (pos % counts.length)
    else seq_scan counts (pos + 1) fuel

/-- `mark_account_failed`, in-memory effect: `usage_counts[idx] = inf`. -/
def mark_account_failed_mem (st : RotatorState) (idx : Nat) : RotatorState :=
  { st with usage_counts := st.usage_counts.set idx .inf }

/-- `reset_usage_counts`, in-memory effect: finite counts drop to `0`,
`inf` markers are kept. -/
def reset_usage_counts_mem (st : RotatorState) : RotatorState :=
  { st with usage_counts := st.usage_counts.map (fun c => if c ≠ .inf then .fin 0 else c) }

/-- One row of the `account_rotation` table (the columns the claims read). -/
structure AccountRow where
  session_name : String
  usage_count : Nat
  is_banned : Bool
  last_error : Option String
  cooldown_until : Option String
  flood_wait_count : Nat
deriving Repr, DecidableEq

/-- Python truthiness of the `cooldown_hours` argument. -/
def cooldownTruthy : Option ℚ → Bool
  | none => false
  | some c => c ≠ 0

/-- `mark_account_failed`, database effect.  When `cooldown_hours` is truthy
the source evaluates `datetime.timedelta(hours=...)` — but `datetime` is the
`datetime.datetime` class, which has no `timedelta` attribute, so an
`AttributeError` is raised before the UPDATE, caught by the surrounding
`except`, and the table is left unchanged. -/
def mark_account_failed_db (tbl : List AccountRow) (session : String)
    (error : Option String) (cooldown_hours : Option ℚ) : List AccountRow :=
  if cooldownTruthy cooldown_hours then tbl
  else tbl.map (fun r =>
    if r.session_name = session then
      { r with
        last_error := some (error.getD "Unknown error")
        cooldown_until := none
        flood_wait_count := r.flood_wait_count + 1 }
    else r)

/-- `reset_usage_counts`, database effect:
`UPDATE account_rotation SET usage_count = 0 WHERE is_banned = 0`. -/
def reset_usage_counts_db (tbl : List AccountRow) : List AccountRow :=
  tbl.map (fun r => if r.is_banned = false then { r with usage_count := 0 } else r)

/-- A concrete rotator state in which every account is ineligible. -/
def allIneligibleState : RotatorState :=
  ⟨["sess_a", "sess_b"], [.inf, .inf], [0, 0], 0⟩

/-- C3 counterexample: with every account ineligible, `get_next_account`
does not fail with `NoAccountAvailable` in any mode: the random, weighted
and smart modes all return the first configured account (`accounts[0]`)
as a fallback with the state unchanged, and the sequential mode's skip
loop never terminates (finds no account within any number of
iterations). -/
theorem get_next_account_no_error_counterexample :
    get_next_account_weighted allIneligibleState 0 = .ok (0, allIneligibleState) ∧
    get_next_account_random (fun l => l.headD 0) allIneligibleState 0 =
      .ok (0, allIneligibleState) ∧
    get_next_account_smart allIneligibleState 0 = .ok (0, allIneligibleState) ∧
    seq_scan allIneligibleState.usage_counts 0 1000 = none ∧
    ∀ e : RotError, get_next_account_weighted allIneligibleState 0 ≠ .error e := by
  refine ⟨rfl, rfl, rfl, by decide, ?_⟩
  intro e h
  rw [show get_next_account_weighted allIneligibleState 0 = .ok (0, allIneligibleState) from rfl] at h
  exact Except.noConfusion h

theorem seq_scan_none_of_all_inf {counts : List UCount}
    (h : ∀ i, (counts.getD i .inf).isFin = false) :
    ∀ fuel pos, seq_scan counts pos fuel = none := by
  intro fuel
  induction fuel with
  | zero => intro pos; rfl
  | succ n ih =>
    intro pos
    simp only [seq_scan, h (pos % counts.length), Bool.false_eq_true, if_false]
    exact ih (pos + 1)

/-- C3 amended: whenever every configured account is ineligible (the
availability list is empty), `get_next_account` returns the first
configured account unchanged-state in the random, weighted and smart
modes — it never produces a `NoAccountAvailable` error — and in the
sequential mode the skip loop runs forever without selecting any
account. -/
theorem get_next_account_all_ineligible (st : RotatorState) (now : ℚ)
    (pick : List Nat → Nat) (h : available_idx st = []) :
    get_next_account_weighted st now = .ok (0, st) ∧
    get_next_account_random pick st now = .ok (0, st) ∧
    get_next_account_smart st now = .ok (0, st) ∧
    ∀ fuel pos, seq_scan st.usage_counts pos fuel = none := by
  have hall : ∀ i, (st.usage_counts.getD i .inf).isFin = false := by
    intro i
    by_cases hi : i < st.usage_counts.length
    · by_contra hfin
      have : i ∈ available_idx st := by
        apply List.mem_filter.mpr
        exact ⟨List.mem_range.mpr hi, by simpa using hfin⟩
      simp [h] at this
    · have hd : st.usage_counts.getD i .inf = .inf := by
        apply List.getD_eq_default
        omega
      rw [hd]
      rfl
  refine ⟨?_, ?_, ?_, seq_scan_none_of_all_inf hall⟩
  · unfold get_next_account_weighted
    rw [h]
  · unfold get_next_account_random
    rw [h]
  · unfold get_next_account_smart
    rw [h]

/-- C3 amended witness. -/
theorem get_next_account_all_ineligible_witness :
    available_idx allIneligibleState = [] ∧
    get_next_account_weighted allIneligibleState 5 = .ok (0, allIneligibleState) :=
  ⟨by decide,
   (get_next_account_all_ineligible allIneligibleState 5 (fun l => l.headD 0) (by decide)).1⟩

theorem getD_set_inf_self (l : List UCount) (idx : Nat) (h : idx < l.length) :
    (l.set idx .inf).getD idx .inf = .inf := by
  induction l generalizing idx with
  | nil => simp at h
  | cons a t ih =>
    cases idx with
    | zero => rfl
    | succ n =>
      simp only [List.set_cons_succ, List.getD_cons_succ]
      exact ih n (by simpa using h)

/-- `mark_account_failed` marks the account unusable in memory. -/
theorem mark_account_failed_sets_inf (st : RotatorState) (idx : Nat)
    (h : idx < st.usage_counts.length) :
    (mark_account_failed_mem st idx).usage_counts.getD idx .inf = .inf :=
  getD_set_inf_self st.usage_counts idx h

theorem reset_keeps_inf {l : List UCount} {idx : Nat} (h : l.getD idx .inf = .inf) :
    (l.map (fun c => if c ≠ .inf then .fin 0 else c)).getD idx .inf = .inf := by
  induction l generalizing idx with
  | nil => simp
  | cons a t ih =>
    cases idx with
    | zero =>
      simp only [List.getD_cons_zero] at h
      simp [List.getD_cons_zero, h]
    | succ n =>
      simp only [List.getD_cons_succ] at h
      simpa [List.getD_cons_succ] using ih h

theorem reset_iter_keeps_inf (st : RotatorState) (idx : Nat)
    (h : st.usage_counts.getD idx .inf = .inf) :
    ∀ n, ((reset_usage_counts_mem)^[n] st).usage_counts.getD idx .inf = .inf := by
  intro n
  induction n with
  | zero => simpa using h
  | succ k ih =>
    rw [Function.iterate_succ_apply']
    exact reset_keeps_inf ih

theorem not_mem_available_of_inf {st : RotatorState} {idx : Nat}
    (h : st.usage_counts.getD idx .inf = .inf) : idx ∉ available_idx st := by
  intro hmem
  have hfin := (List.mem_filter.mp hmem).2
  rw [h] at hfin
  simp [UCount.isFin] at hfin

theorem seq_scan_ne_of_inf {counts : List UCount} {idx : Nat}
    (h : counts.getD idx .inf = .inf) :
    ∀ fuel pos, seq_scan counts pos fuel ≠ some idx := by
  intro fuel
  induction fuel with
  | zero => intro pos hc; exact Option.noConfusion hc
  | succ n ih =>
    intro pos hc
    unfold seq_scan at hc
    by_cases hf : (counts.getD (pos % counts.length) .inf).isFin = true
    · rw [if_pos hf] at hc
      have heq : pos % counts.length = idx := Option.some.inj hc
      rw [heq, h] at hf
      simp [UCount.isFin] at hf
    · rw [if_neg hf] at hc
      exact ih (pos + 1) hc

/-- C10: once an account is marked failed (`usage_counts[idx] = inf`),
no number of `reset_usage_counts` invocations (as performed every 5 items
of `batch_join_archive`) makes it eligible again: the in-memory reset
skips `inf` entries, so after any number of resets the account is still
marked `inf`, is absent from the availability list used by the random,
weighted and smart modes, and is never selected by the sequential skip
loop; the database reset touches only rows with `is_banned = 0`, leaving
banned rows unchanged.  (`mark_account_failed` itself always sets the
in-memory marker to `inf`.) -/
theorem reset_preserves_failed_exclusion (st : RotatorState) (idx : Nat)
    (h : st.usage_counts.getD idx .inf = .inf) :
    (∀ st' : RotatorState, ∀ i, i < st'.usage_counts.length →
      (mark_account_failed_mem st' i).usage_counts.getD i .inf = .inf) ∧
    (∀ n, ((reset_usage_counts_mem)^[n] st).usage_counts.getD idx .inf = .inf) ∧
    (∀ n, idx ∉ available_idx ((reset_usage_counts_mem)^[n] st)) ∧
    (∀ n fuel pos,
      seq_scan ((reset_usage_counts_mem)^[n] st).usage_counts pos fuel ≠ some idx) ∧
    (∀ tbl : List AccountRow, ∀ r ∈ tbl, r.is_banned = true →
      r ∈ reset_usage_counts_db tbl) := by
  refine ⟨mark_account_failed_sets_inf, reset_iter_keeps_inf st idx h,
    fun n => not_mem_available_of_inf (reset_iter_keeps_inf st idx h n),
    fun n => seq_scan_ne_of_inf (reset_iter_keeps_inf st idx h n),
    fun tbl r hr hb => ?_⟩
  unfold reset_usage_counts_db
  have heq : (if r.is_banned = false then { r with usage_count := 0 } else r) = r := by
    rw [hb]
    simp
  exact heq ▸ List.mem_map_of_mem _ hr

/-- C10 witness: a concrete failed account stays excluded through a reset. -/
theorem reset_preserves_failed_exclusion_witness :
    ((⟨["a", "b"], [.inf, .fin 3], [0, 0], 0⟩ : RotatorState).usage_counts.getD 0 .inf = .inf) ∧
    ((reset_usage_counts_mem)^[1]
        (⟨["a", "b"], [.inf, .fin 3], [0, 0], 0⟩ : RotatorState)).usage_counts.getD 0 .inf = .inf :=
  ⟨by decide,
   (reset_preserves_failed_exclusion ⟨["a", "b"], [.inf, .fin 3], [0, 0], 0⟩ 0 (by decide)).2.1 1⟩

/- ### Store mutation retries (db.py, `insert_user` / `insert_media`) -/

/-- The kind of error an attempted SQLite statement can raise:
`opLocked` is an `sqlite3.OperationalError` whose message contains
"locked"; `opOther` any other `sqlite3.OperationalError`; `sqliteOther`
any other `sqlite3.Error` (e.g. `IntegrityError`); `generic` a non-SQLite
exception. -/
inductive DbErrKind where
  | opLocked
  | opOther
  | sqliteOther
  | generic
deriving Repr, DecidableEq

/-- Outcome of one execution attempt. -/
inductive AttemptResult where
  | succ
  | fail : DbErrKind → AttemptResult
deriving Repr, DecidableEq

/-- Observable outcome of a mutating store operation: success after
`attempts` tries, an exception propagated from attempt `attempts`, or the
final `raise Exception(...)` after exhausting the retries.  `sleeps` lists
the `time.sleep` durations, in seconds and in order. -/
inductive InsertOutcome where
  | success (attempts : Nat) (sleeps : List ℚ)
  | raised (k : DbErrKind) (attempts : Nat) (sleeps : List ℚ)
  | exhausted (attempts : Nat) (sleeps : List ℚ)
deriving Repr, DecidableEq

/-- `insert_user` retry loop (`for attempt in range(1, self.retries + 1)`,
`backoff = 1.0`, doubling): retries only on locked `OperationalError`
(sleeping `backoff` then doubling it), re-raises any other error
immediately, and raises an `Exception` after the retries are exhausted.
`env n` is the outcome of the `n`-th execution attempt (1-based). -/
def insert_user_go (env : Nat → AttemptResult) (remaining attempt : Nat)
    (backoff : ℚ) (sleeps : List ℚ) : InsertOutcome :=
  match remaining with
  | 0 => .exhausted (attempt - 1) sleeps
  | r + 1 =>
    match env attempt with
    | .succ => .success attempt sleeps
    | .fail .opLocked => insert_user_go env r (attempt + 1) (backoff * 2) (sleeps ++ [backoff])
    | .fail k => .raised k attempt sleeps

def insert_user (env : Nat → AttemptResult) : InsertOutcome :=
  insert_user_go env 3 1 1 []

/-- `insert_media` retry loop (`for attempt in range(self.retries)`): any
`sqlite3.Error` is retried after a constant `time.sleep(1)`, except that the
last attempt converts it into the final raised `Exception`; only non-SQLite
exceptions (which the `except sqlite3.Error` clause does not catch)
propagate immediately. -/
def insert_media_go (env : Nat → AttemptResult) (remaining attempt : Nat)
    (sleeps : List ℚ) : InsertOutcome :=
  match remaining with
  | 0 => .exhausted (attempt - 1) sleeps
  | r + 1 =>
    match env attempt with
    | .succ => .success attempt sleeps
    | .fail .generic => .raised .generic attempt sleeps
    | .fail _ =>
      match r with
      | 0 => .exhausted attempt sleeps
      | _ + 1 => insert_media_go env r (attempt + 1) (sleeps ++ [1])

def insert_media (env : Nat → AttemptResult) : InsertOutcome :=
  insert_media_go env 3 1 []

/-- C7 counterexample: a non-lock SQLite error (e.g. an
`IntegrityError`) raised on every attempt is NOT propagated immediately by
`insert_media`: the operation runs 3 attempts with two constant 1-second
sleeps (no exponential doubling) before failing — contradicting the claim
that every mutating operation propagates non-lock errors without
retrying and backs off exponentially. -/
theorem insert_media_retries_nonlock_counterexample :
    insert_media (fun _ => .fail .sqliteOther) = .exhausted 3 [1, 1] ∧
    insert_media (fun _ => .fail .sqliteOther) ≠ .raised .sqliteOther 1 [] := by
  refine ⟨by decide, by decide⟩

/-- C7 amended: `insert_user` retries up to 3 attempts on locked errors
with exponential backoff starting at 1 second and doubling each attempt,
and propagates any non-lock error immediately; `insert_media` (and the
identically structured `insert_message`) instead retries on every SQLite
error — lock or not — with a constant 1-second sleep, raising only after
its 3 attempts are exhausted, and only non-SQLite exceptions propagate
immediately. -/
theorem insert_retry_behaviour (env : Nat → AttemptResult) :
    (env 1 = .fail .opLocked → env 2 = .fail .opLocked → env 3 = .fail .opLocked →
      insert_user env = .exhausted 3 [1, 2, 4]) ∧
    (∀ k, k ≠ .opLocked → env 1 = .fail k → insert_user env = .raised k 1 []) ∧
    (env 1 = .fail .opLocked → env 2 = .succ → insert_user env = .success 2 [1]) ∧
    (∀ k1 k2 k3, k1 ≠ .generic → k2 ≠ .generic → k3 ≠ .generic →
      env 1 = .fail k1 → env 2 = .fail k2 → env 3 = .fail k3 →
      insert_media env = .exhausted 3 [1, 1]) ∧
    (env 1 = .fail .generic → insert_media env = .raised .generic 1 []) := by
  refine ⟨?_, ?_, ?_, ?_, ?_⟩
  · intro h1 h2 h3
    simp [insert_user, insert_user_go, h1, h2, h3]
    norm_num
  · intro k hk h1
    cases k <;> simp_all [insert_user, insert_user_go]
  · intro h1 h2
    simp [insert_user, insert_user_go, h1, h2]
  · intro k1 k2 k3 hk1 hk2 hk3 h1 h2 h3
    cases k1 <;> cases k2 <;> cases k3 <;> simp_all [insert_media, insert_media_go]
  · intro h1
    simp [insert_media, insert_media_go, h1]

/-- C7 amended witness. -/
theorem insert_retry_behaviour_witness :
    ((fun _ : Nat => AttemptResult.fail .opLocked) 1 = .fail .opLocked) ∧
    insert_user (fun _ => .fail .opLocked) = .exhausted 3 [1, 2, 4] :=
  ⟨rfl, (insert_retry_behaviour (fun _ => .fail .opLocked)).1 rfl rfl rfl⟩

/- ### Group joining (discovery.py, `GroupManager.join_group`, `@name` links) -/

/-- Outcome of one `JoinChannelRequest` attempt against the gateway. -/
inductive JoinOutcome where
  | joined : Int → JoinOutcome
  | floodWait : Nat → JoinOutcome
  | channelsTooMuch : JoinOutcome
  | permError : JoinOutcome
  | authError : JoinOutcome
deriving Repr, DecidableEq

/-- The account-rotation state `join_group` manipulates (with the default
`sequential` rotation mode and `per_operation` policy): the in-memory
`usage_counts`, the cycle-iterator position, and the current account
index.  (`last_used` bookkeeping is carried by the rotator but read by no
branch of `join_group`; it is omitted from this state.) -/
structure JoinState where
  usage : List UCount
  pos : Nat
  cur : Nat
deriving Repr, DecidableEq

/-- Like `seq_scan` but returning the iterator position of the first
eligible account.  A full cycle of `usage.length` positions decides
eligibility, since the skip loop revisits the same indices cyclically. -/
def seq_scan_pos (counts : List UCount) (pos : Nat) : Nat → Option Nat
  | 0 => none
  | fuel + 1 =>
    if (counts.getD (pos % counts.length) .inf).isFin then some pos
    else seq_scan_pos counts (pos + 1) fuel

/-- `select_client` with sequential rotation: `get_next_account` draws from
the cycle iterator, skipping accounts marked `inf` (spinning forever —
`none` — when every account is marked), then increments the usage count of
the selected account and makes it current. -/
def join_select (st : JoinState) : Option JoinState :=
  match seq_scan_pos st.usage st.pos st.usage.length with
  | none => none
  | some p =>
    let j := p % st.usage.length
    some ⟨st.usage.set j ((st.usage.getD j .inf).incr), p + 1, j⟩

/-- Observable trace of one `join_group` call: the returned value
(`none` = Python `None`; the function's catch-all `except Exception`
handler means no exception ever escapes it), the number of join attempts
made, the `mark_account_failed` calls `(account index, cooldown_hours)` in
order, and whether the run diverged (unbounded recursion or a
never-terminating sequential skip loop). -/
structure JoinTrace where
  result : Option Int
  attempts : Nat
  marks : List (Nat × Option ℚ)
  diverged : Bool
deriving Repr, DecidableEq

/-- `join_group` for a `@name` link.  Entry re-selects the client
(`per_operation` policy).  On success the entity id is returned; on a
permission error `None` is returned without marking; on a flood-wait of
`s` seconds the current account is marked failed with
`cooldown_hours = s/3600`, the next account is selected and the whole
call recurses; on `ChannelsTooMuch` the same with a 24-hour cooldown; any
other exception (auth errors included) falls into the outer
`except Exception`, which marks the current account failed (no cooldown)
and returns `None`. -/
def join_group_go (env : Nat → JoinOutcome) (fuel : Nat) (st : JoinState)
    (attempt : Nat) (marks : List (Nat × Option ℚ)) : JoinTrace :=
  match fuel with
  | 0 => ⟨none, attempt - 1, marks, true⟩
  | f + 1 =>
    match join_select st with
    | none => ⟨none, attempt - 1, marks, true⟩
    | some st1 =>
      match env attempt with
      | .joined i => ⟨some i, attempt, marks, false⟩
      | .permError => ⟨none, attempt, marks, false⟩
      | .authError => ⟨none, attempt, marks ++ [(st1.cur, none)], false⟩
      | .floodWait s =>
        let st2 : JoinState := { st1 with usage := st1.usage.set st1.cur .inf }
        match join_select st2 with
        | none => ⟨none, attempt, marks ++ [(st1.cur, some ((s : ℚ) / 3600))], true⟩
        | some st3 =>
          join_group_go env f st3 (attempt + 1) (marks ++ [(st1.cur, some ((s : ℚ) / 3600))])
      | .channelsTooMuch =>
        let st2 : JoinState := { st1 with usage := st1.usage.set st1.cur .inf }
        match join_select st2 with
        | none => ⟨none, attempt, marks ++ [(st1.cur, some 24)], true⟩
        | some st3 =>
          join_group_go env f st3 (attempt + 1) (marks ++ [(st1.cur, some 24)])

/-- A three-account fleet, all healthy, iterator at the start. -/
def initJoin3 : JoinState := ⟨[.fin 0, .fin 0, .fin 0], 0, 0⟩

/-- Attempt outcomes: two successive flood-waits, then success. -/
def floodFloodJoinEnv (s1 s2 : Nat) (i : Int) : Nat → JoinOutcome :=
  fun k => if k = 1 then .floodWait s1 else if k = 2 then .floodWait s2 else .joined i

/-- Attempt outcomes: `ChannelsTooMuch`, then success. -/
def tooMuchJoinEnv (i : Int) : Nat → JoinOutcome :=
  fun k => if k = 1 then .channelsTooMuch else .joined i

/-- C8 counterexample: `join_group` does not retry "at most once" and auth
errors do not propagate.  With three healthy accounts, two successive
flood-waits lead to a third attempt (two retries) that succeeds; and when
the first attempt raises an auth error, the call returns `None` (the
catch-all handler swallows the exception and marks the account failed)
instead of propagating. -/
theorem join_group_as_stated_fails :
    (join_group_go (floodFloodJoinEnv 30 60 99) 10 initJoin3 1 []).attempts = 3 ∧
    (join_group_go (fun _ => JoinOutcome.authError) 10 initJoin3 1 []).result = none ∧
    (join_group_go (fun _ => JoinOutcome.authError) 10 initJoin3 1 []).marks = [(0, none)] := by
  refine ⟨by decide, by decide, by decide⟩

/-- C8 amended: on a flood-wait of `s` seconds `join_group` marks the
current account failed passing `cooldown_hours = s/3600` (the in-memory
`inf` marker takes effect; the database cooldown write is lost to the
`datetime.timedelta` bug, see `mark_account_failed_db`), selects the next
account and retries recursively — as often as further flood-waits occur,
not at most once; on `ChannelsTooMuch` it marks a 24-hour cooldown and
retries the same way; auth errors are swallowed by the catch-all handler,
which marks the account failed without cooldown and returns `None`. -/
theorem join_group_retry_behaviour :
    (∀ (s1 s2 : Nat) (i : Int),
      join_group_go (floodFloodJoinEnv s1 s2 i) 10 initJoin3 1 [] =
        ⟨some i, 3, [(0, some ((s1 : ℚ) / 3600)), (2, some ((s2 : ℚ) / 3600))], false⟩) ∧
    (∀ i : Int,
      join_group_go (tooMuchJoinEnv i) 10 initJoin3 1 [] =
        ⟨some i, 2, [(0, some 24)], false⟩) ∧
    (∀ (env : Nat → JoinOutcome) (st st1 : JoinState) (attempt : Nat)
        (marks : List (Nat × Option ℚ)) (f : Nat),
      join_select st = some st1 → env attempt = .authError →
      join_group_go env (f + 1) st attempt marks =
        ⟨none, attempt, marks ++ [(st1.cur, none)], false⟩) := by
  refine ⟨?_, ?_, ?_⟩
  · intro s1 s2 i
    rfl
  · intro i
    rfl
  · intro env st st1 attempt marks f hsel henv
    unfold join_group_go
    rw [hsel, henv]

/-- C8 amended witness. -/
theorem join_group_retry_behaviour_witness :
    join_select initJoin3 = some ⟨[.fin 1, .fin 0, .fin 0], 1, 0⟩ ∧
    (fun _ : Nat => JoinOutcome.authError) 1 = .authError ∧
    join_group_go (fun _ => JoinOutcome.authError) 3 initJoin3 1 [] =
      ⟨none, 1, [(0, none)], false⟩ :=
  ⟨by decide, rfl,
   (join_group_retry_behaviour).2.2 (fun _ => JoinOutcome.authError) initJoin3
     ⟨[.fin 1, .fin 0, .fin 0], 1, 0⟩ 1 [] 2 (by decide) rfl⟩

/- ### Link extraction (discovery.py, `USERNAME_PATTERN`, `INVITE_LINK_PATTERN`,
`GroupDiscovery.extract_from_entity`) -/

/-- The regex class `[A-Za-z0-9_]`. -/
def isWordChar (c : Char) : Bool :=
  (decide (65 ≤ c.toNat) && decide (c.toNat ≤ 90)) ||
  (decide (97 ≤ c.toNat) && decide (c.toNat ≤ 122)) ||
  (decide (48 ≤ c.toNat) && decide (c.toNat ≤ 57)) || (c.toNat == 95)

/-- The regex class `[a-zA-Z0-9_-]` (the invite-pattern capture group). -/
def isCapChar (c : Char) : Bool :=
  isWordChar c || (c.toNat == 45)

/-- `re.findall` for `USERNAME_PATTERN = @([A-Za-z0-9_]{5,32})`: scan left to
right; at each `@` take the greedy run of word characters, match if it has
at least 5 (capturing at most 32), and resume after the match. -/
def username_findall_go : Nat → List Char → List String
  | 0, _ => []
  | _, [] => []
  | fuel + 1, c :: rest =>
    if c = '@' then
      let run := rest.takeWhile isWordChar
      if 5 ≤ run.length then
        let cap := run.take 32
        cap.asString :: username_findall_go fuel (rest.drop cap.length)
      else username_findall_go fuel rest
    else username_findall_go fuel rest

def username_findall (s : String) : List String :=
  username_findall_go (s.length + 1) s.data

/-- Match a literal character sequence, returning the remainder. -/
def dropLit : List Char → List Char → Option (List Char)
  | [], l => some l
  | _ :: _, [] => none
  | p :: ps, c :: cs => if c = p then dropLit ps cs else none

/-- The capture group `([a-zA-Z0-9_-]+)`: a greedy non-empty run. -/
def tryCapture (l : List Char) : Option (List Char × List Char) :=
  let run := l.takeWhile isCapChar
  if run.isEmpty then none else some (run, l.drop run.length)

/-- Alternative `joinchat/` followed by the capture. -/
def altJoinchat (l : List Char) : Option (List Char × List Char) :=
  match dropLit "joinchat/".data l with
  | none => none
  | some r => tryCapture r

def altQmarkGo (l : List Char) : List Nat → Option (List Char × List Char)
  | [] => none
  | k :: ks =>
    match tryCapture (l.drop (k + 1)) with
    | some res => some res
    | none => altQmarkGo l ks

/-- Alternative `[^/]+\?` followed by the capture, with the regex engine's
greedy backtracking: try each position `k ≥ 1` of a `?` inside the maximal
non-`/` run, longest first, and at each attempt the capture after it. -/
def altQmark (l : List Char) : Option (List Char × List Char) :=
  let run := l.takeWhile (fun c => !(c = '/'))
  let ks := ((List.range run.length).filter
    (fun k => decide (1 ≤ k) && (run.getD k ' ' == '?'))).reverse
  altQmarkGo l ks

def altBackslashGo (l : List Char) : List Nat → Option (List Char × List Char)
  | [] => none
  | k :: ks =>
    match tryCapture (l.drop k) with
    | some res => some res
    | none => altBackslashGo l ks

/-- Alternative `\\+` (one or more literal backslashes — the pattern's
escaped backslash) followed by the capture, greedy with backtracking. -/
def altBackslash (l : List Char) : Option (List Char × List Char) :=
  let run := l.takeWhile (fun c => c = '\\')
  let ks := ((List.range (run.length + 1)).filter (fun k => decide (1 ≤ k))).reverse
  altBackslashGo l ks

/-- The alternation `(?:joinchat/|[^/]+\?|\\+)` followed by the capture,
in the pattern's order. -/
def matchTail (l : List Char) : Option (List Char × List Char) :=
  match altJoinchat l with
  | some res => some res
  | none =>
    match altQmark l with
    | some res => some res
    | none => altBackslash l

def tryWithScheme (p : String) (l : List Char) : Option (List Char × List Char) :=
  match dropLit p.data l with
  | none => none
  | some r => matchTail r

/-- One anchored match attempt of
`INVITE_LINK_PATTERN = (?:https?://)?t\.me/(?:joinchat/|[^/]+\?|\\+)([a-zA-Z0-9_-]+)`:
the optional scheme is tried greedily (`https://`, then `http://`, then
absent), each followed by `t.me/` and the alternation. -/
def matchInviteAt (l : List Char) : Option (List Char × List Char) :=
  match tryWithScheme "https://t.me/" l with
  | some res => some res
  | none =>
    match tryWithScheme "http://t.me/" l with
    | some res => some res
    | none => tryWithScheme "t.me/" l

/-- `re.findall` for `INVITE_LINK_PATTERN`: scan left to right,
non-overlapping, resuming after each match. -/
def invite_findall_go : Nat → List Char → List String
  | 0, _ => []
  | _, [] => []
  | fuel + 1, l@(_ :: rest) =>
    match matchInviteAt l with
    | some (cap, after) => cap.asString :: invite_findall_go fuel after
    | none => invite_findall_go fuel rest

def invite_findall (s : String) : List String :=
  invite_findall_go (s.length + 1) s.data

/-- The tokens `extract_from_entity` collects from one message text:
`@username` for each `USERNAME_PATTERN` capture, and
`https://t.me/joinchat/<capture>` for each `INVITE_LINK_PATTERN`
capture. -/
def extract_from_text (text : String) : List String :=
  (username_findall text).map (fun u => "@" ++ u) ++
    (invite_findall text).map (fun h => "https://t.me/joinchat/" ++ h)

/-- C6 counterexample: a message text containing the public links
`t.me/somename` and `t.me/c/12345` yields NO tokens at all — in
particular not the claimed `@somename`.  `USERNAME_PATTERN` needs a `@`,
and `INVITE_LINK_PATTERN` requires `joinchat/`, a `?`-terminated segment,
or backslashes after `t.me/`, none of which a plain public link has. -/
theorem extract_tme_counterexample :
    extract_from_text "see t.me/somename and t.me/c/12345" = [] ∧
    "@somename" ∉ extract_from_text "see t.me/somename and t.me/c/12345" := by
  refine ⟨by decide, by decide⟩

/-- C6 amended: the discovery link-extraction never normalises a public
`t.me/<name>` or `t.me/c/<id>` link to `@name`; every token it produces
is either `@handle` from an explicit `@`-mention or
`https://t.me/joinchat/<capture>` from an invite-pattern match. -/
theorem extract_from_text_token_shape (text tok : String)
    (h : tok ∈ extract_from_text text) :
    (∃ u, tok = "@" ++ u) ∨ (∃ v, tok = "https://t.me/joinchat/" ++ v) := by
  unfold extract_from_text at h
  rcases List.mem_append.mp h with h | h
  · rcases List.mem_map.mp h with ⟨u, _, rfl⟩
    exact Or.inl ⟨u, rfl⟩
  · rcases List.mem_map.mp h with ⟨v, _, rfl⟩
    exact Or.inr ⟨v, rfl⟩

/-- C6 amended witness. -/
theorem extract_from_text_token_shape_witness :
    ("@abcde" ∈ extract_from_text "hi @abcde") ∧
    ((∃ u, "@abcde" = "@" ++ u) ∨ (∃ v, "@abcde" = "https://t.me/joinchat/" ++ v)) :=
  ⟨by decide, extract_from_text_token_shape "hi @abcde" "@abcde" (by decide)⟩

/- ### Network priorities (discovery.py, `_update_group_priorities`) -/

/-- The two tables `_update_group_priorities` reads and writes:
`discovered_groups` as `(group_link, priority)` rows and
`group_relationships` as `(source_group, target_group, weight)` rows.
Real arithmetic (Python floats) is modelled exactly over `ℚ`. -/
structure PriorityDB where
  groups : List (String × ℚ)
  edges : List (String × String × ℚ)
deriving Repr, DecidableEq

/-- The node list of the `nx.DiGraph`: first the group links (added as
nodes), then any edge endpoints not yet present, in insertion order. -/
def graph_nodes (db : PriorityDB) : List String :=
  (db.groups.map Prod.fst ++ db.edges.map (fun e => e.1) ++
    db.edges.map (fun e => e.2.1)).dedup

/-- Successors of `u` in the `DiGraph` (a repeated `add_edge` keeps one
edge, so targets are deduplicated). -/
def succL (edges : List (String × String × ℚ)) (u : String) : List String :=
  ((edges.filter (fun e => e.1 = u)).map (fun e => e.2.1)).dedup

/-- The weight of edge `(u, v)` (the last `add_edge` wins). -/
def wOf (edges : List (String × String × ℚ)) (u v : String) : ℚ :=
  match (edges.filter (fun e => e.1 = u && e.2.1 = v)).getLast? with
  | some e => e.2.2
  | none => 0

/-- Total out-weight of `u` (the normalisation `nx.stochastic_graph`
divides by). -/
def outW (edges : List (String × String × ℚ)) (u : String) : ℚ :=
  ((succL edges u).map (wOf edges u)).sum

/-- Python `abs` on a rational. -/
def qabs (q : ℚ) : ℚ := if q < 0 then -q else q

/-- One power-iteration step of `nx.pagerank` over the right-stochastic
graph: uniform personalization `1/N`, dangling mass redistributed
uniformly. -/
def pr_step (nodes : List String) (edges : List (String × String × ℚ))
    (alpha : ℚ) (x : List ℚ) : List ℚ :=
  let N : ℚ := (nodes.length : ℚ)
  let danglesum := alpha *
    (((nodes.zip x).filter (fun p => succL edges p.1 = [])).map Prod.snd).sum
  nodes.map (fun n =>
    alpha * ((nodes.zip x).map (fun p =>
      if n ∈ succL edges p.1 then p.2 * (wOf edges p.1 n / outW edges p.1) else 0)).sum
    + danglesum * (1 / N) + (1 - alpha) * (1 / N))

/-- The `nx.pagerank` power iteration: up to `max_iter` steps, declaring
convergence when the L1 difference drops below `N · tol`; `none` models the
`PowerIterationFailedConvergence` exception. -/
def pr_loop (nodes : List String) (edges : List (String × String × ℚ))
    (alpha tol : ℚ) : Nat → List ℚ → Option (List ℚ)
  | 0, _ => none
  | it + 1, x =>
    let xn := pr_step nodes edges alpha x
    let err := ((x.zip xn).map (fun p => qabs (p.1 - p.2))).sum
    if err < (nodes.length : ℚ) * tol then some xn
    else pr_loop nodes edges alpha tol it xn

/-- `nx.pagerank(G, alpha=0.85)` with the default `tol=1e-6`,
`max_iter=100`, uniform start `1/N`, paired with its node per the
dictionary the call returns. -/
def pagerankQ (nodes : List String) (edges : List (String × String × ℚ)) :
    Option (List (String × ℚ)) :=
  if nodes.length = 0 then some []
  else
    match pr_loop nodes edges (85 / 100) (1 / 1000000) 100
        (nodes.map (fun _ => 1 / (nodes.length : ℚ))) with
    | none => none
    | some xs => some (nodes.zip xs)

/-- Distinct predecessors of `v` (its in-degree in the `DiGraph`). -/
def predL (edges : List (String × String × ℚ)) (v : String) : List String :=
  ((edges.filter (fun e => e.2.1 = v)).map (fun e => e.1)).dedup

/-- `nx.in_degree_centrality`: `in_degree(n) / (N - 1)`, and `1` for every
node of a graph with at most one node. -/
def in_degree_centrality (nodes : List String) (edges : List (String × String × ℚ))
    (n : String) : ℚ :=
  if nodes.length ≤ 1 then 1
  else ((predL edges n).length : ℚ) * (1 / ((nodes.length : ℚ) - 1))

/-- The UPDATE loop: for each `(node, combined)` pair, every
`discovered_groups` row whose `group_link` equals the node receives the
new priority. -/
def apply_priority_updates (groups : List (String × ℚ)) (upds : List (String × ℚ)) :
    List (String × ℚ) :=
  upds.foldl (fun gs u => gs.map (fun g => if g.1 = u.1 then (g.1, u.2) else g)) groups

/-- `_update_group_priorities`: build the graph, return unchanged when it
has no nodes; compute PageRank (a convergence failure raises, is caught,
and leaves the table unchanged) and in-degree centrality; write
`priority = 0.7 · pagerank + 0.3 · in_degree` for every node. -/
def update_group_priorities (db : PriorityDB) : PriorityDB :=
  let nodes := graph_nodes db
  if nodes.isEmpty then db
  else
    match pagerankQ nodes db.edges with
    | none => db
    | some pr =>
      let upds := pr.map (fun p =>
        (p.1, p.2 * (7 / 10) + in_degree_centrality nodes db.edges p.1 * (3 / 10)))
      { db with groups := apply_priority_updates db.groups upds }

theorem apply_priority_updates_unkeyed {groups : List (String × ℚ)} {g : String} {c : ℚ}
    (hg : (g, c) ∈ groups) :
    ∀ upds : List (String × ℚ), g ∉ upds.map Prod.fst →
      (g, c) ∈ apply_priority_updates groups upds := by
  intro upds
  induction upds generalizing groups with
  | nil => intro _; simpa [apply_priority_updates] using hg
  | cons u rest ih =>
    intro hnot
    simp only [List.map_cons, List.mem_cons, not_or] at hnot
    have hstep : (g, c) ∈ groups.map (fun r => if r.1 = u.1 then (r.1, u.2) else r) := by
      have := List.mem_map_of_mem (fun r : String × ℚ => if r.1 = u.1 then (r.1, u.2) else r) hg
      simpa [hnot.1] using this
    simpa [apply_priority_updates] using ih hstep hnot.2

theorem apply_priority_updates_mem {groups upds : List (String × ℚ)}
    (hnd : (upds.map Prod.fst).Nodup) {g : String} {c : ℚ} (hu : (g, c) ∈ upds)
    {p : ℚ} (hg : (g, p) ∈ groups) :
    (g, c) ∈ apply_priority_updates groups upds := by
  induction upds generalizing groups with
  | nil => simp at hu
  | cons u rest ih =>
    simp only [List.map_cons, List.nodup_cons] at hnd
    rcases List.mem_cons.mp hu with hu | hu
    · have hu1 : u.1 = g := by rw [← hu]
      have hu2 : u.2 = c := by rw [← hu]
      have hstep : (g, c) ∈ groups.map (fun r => if r.1 = u.1 then (r.1, u.2) else r) := by
        have hm := List.mem_map_of_mem (fun r : String × ℚ => if r.1 = u.1 then (r.1, u.2) else r) hg
        simpa [hu1, hu2] using hm
      simpa [apply_priority_updates] using
        apply_priority_updates_unkeyed hstep rest (hu1 ▸ hnd.1)
    · have hne : g ≠ u.1 := by
        intro he
        exact hnd.1 (he ▸ (List.mem_map_of_mem Prod.fst hu))
      have hstep : (g, p) ∈ groups.map (fun r => if r.1 = u.1 then (r.1, u.2) else r) := by
        have := List.mem_map_of_mem (fun r : String × ℚ => if r.1 = u.1 then (r.1, u.2) else r) hg
        simpa [hne] using this
      simpa [apply_priority_updates] using ih hnd.2 hu hstep

theorem pr_loop_length {nodes : List String} {edges : List (String × String × ℚ)}
    {alpha tol : ℚ} :
    ∀ {fuel : Nat} {x xs : List ℚ}, pr_loop nodes edges alpha tol fuel x = some xs →
      xs.length = nodes.length := by
  intro fuel
  induction fuel with
  | zero => intro x xs h; exact Option.noConfusion h
  | succ it ih =>
    intro x xs h
    unfold pr_loop at h
    by_cases hc : (((x.zip (pr_step nodes edges alpha x)).map
        (fun p => qabs (p.1 - p.2))).sum) < (nodes.length : ℚ) * tol
    · rw [if_pos hc] at h
      have := Option.some.inj h
      rw [← this]
      simp [pr_step]
    · rw [if_neg hc] at h
      exact ih h

theorem zip_mem_of_mem_left {α β : Type} {l1 : List α} {l2 : List β} {a : α}
    (h : a ∈ l1) (hlen : l1.length = l2.length) : ∃ b, (a, b) ∈ l1.zip l2 := by
  induction l1 generalizing l2 with
  | nil => simp at h
  | cons x t ih =>
    cases l2 with
    | nil => simp at hlen
    | cons y t2 =>
      rcases List.mem_cons.mp h with h | h
      · exact ⟨y, by simp [h]⟩
      · rcases ih h (by simpa using hlen) with ⟨b, hb⟩
        exact ⟨b, List.mem_cons_of_mem _ hb⟩

/-- C9: after a successful priority recompute, every `discovered_groups`
row's stored priority equals `0.7 · PageRank + 0.3 · in-degree centrality`
(PageRank with damping 0.85 over the current `group_relationships` edge
set): every group link is a node of the graph, receives a PageRank score
`s`, and its row is rewritten to the combined value. -/
theorem update_group_priorities_formula (db : PriorityDB) (pr : List (String × ℚ))
    (hconv : pagerankQ (graph_nodes db) db.edges = some pr)
    (g : String) (p : ℚ) (hg : (g, p) ∈ db.groups) :
    ∃ s, (g, s) ∈ pr ∧
      (g, s * (7 / 10) + in_degree_centrality (graph_nodes db) db.edges g * (3 / 10)) ∈
        (update_group_priorities db).groups := by
  have hgnode : g ∈ graph_nodes db := by
    apply List.mem_dedup.mpr
    apply List.mem_append.mpr
    exact Or.inl (List.mem_append.mpr (Or.inl (List.mem_map_of_mem Prod.fst hg)))
  have hne : graph_nodes db ≠ [] := by
    intro he
    rw [he] at hgnode
    simp at hgnode
  have hlen0 : ¬ (graph_nodes db).length = 0 := by
    simpa [List.length_eq_zero] using hne
  obtain ⟨xs, hxs, hpr⟩ :
      ∃ xs, pr_loop (graph_nodes db) db.edges (85 / 100) (1 / 1000000) 100
        ((graph_nodes db).map (fun _ => 1 / ((graph_nodes db).length : ℚ))) = some xs ∧
        pr = (graph_nodes db).zip xs := by
    unfold pagerankQ at hconv
    rw [if_neg hlen0] at hconv
    rcases hl : pr_loop (graph_nodes db) db.edges (85 / 100) (1 / 1000000) 100
        ((graph_nodes db).map (fun _ => 1 / ((graph_nodes db).length : ℚ))) with _ | xs
    · rw [hl] at hconv
      exact Option.noConfusion hconv
    · rw [hl] at hconv
      exact ⟨xs, rfl, (Option.some.inj hconv).symm⟩
  have hxslen : xs.length = (graph_nodes db).length := pr_loop_length hxs
  obtain ⟨s, hs⟩ : ∃ s, (g, s) ∈ pr := by
    rcases zip_mem_of_mem_left hgnode hxslen.symm with ⟨b, hb⟩
    exact ⟨b, hpr ▸ hb⟩
  refine ⟨s, hs, ?_⟩
  have hupd : (g, s * (7 / 10) + in_degree_centrality (graph_nodes db) db.edges g * (3 / 10)) ∈
      pr.map (fun q =>
        (q.1, q.2 * (7 / 10) + in_degree_centrality (graph_nodes db) db.edges q.1 * (3 / 10))) := by
    have := List.mem_map_of_mem (fun q : String × ℚ =>
      (q.1, q.2 * (7 / 10) + in_degree_centrality (graph_nodes db) db.edges q.1 * (3 / 10))) hs
    simpa using this
  have hkeys : pr.map Prod.fst = graph_nodes db := by
    rw [hpr]
    exact List.map_fst_zip _ _ (le_of_eq hxslen.symm)
  have hndkeys : ((pr.map (fun q =>
      (q.1, q.2 * (7 / 10) + in_degree_centrality (graph_nodes db) db.edges q.1 * (3 / 10)))).map
        Prod.fst).Nodup := by
    have : (pr.map (fun q =>
        (q.1, q.2 * (7 / 10) + in_degree_centrality (graph_nodes db) db.edges q.1 * (3 / 10)))).map
          Prod.fst = pr.map Prod.fst := by
      simp [List.map_map]
    rw [this, hkeys]
    exact List.nodup_dedup _
  unfold update_group_priorities
  rw [if_neg (by simpa [List.isEmpty_iff] using hne), hconv]
  exact apply_priority_updates_mem hndkeys hupd hg

unseal Rat.add Rat.mul Rat.inv Rat.sub in
/-- C9 witness: a single discovered group with no edges converges in one
iteration to PageRank 1, in-degree centrality 1, and combined priority
`0.7 + 0.3 = 1`. -/
theorem update_group_priorities_formula_witness :
    pagerankQ (graph_nodes ⟨[("@a", 0)], []⟩) [] = some [("@a", 1)] ∧
    ∃ s, (("@a", s) ∈ [(("@a" : String), (1 : ℚ))]) ∧
      ("@a", s * (7 / 10) + in_degree_centrality (graph_nodes ⟨[("@a", 0)], []⟩) [] "@a" * (3 / 10)) ∈
        (update_group_priorities ⟨[("@a", 0)], []⟩).groups :=
  ⟨by decide,
   update_group_priorities_formula ⟨[("@a", 0)], []⟩ [("@a", 1)] (by decide) "@a" 0 (by decide)⟩
